import Mathlib

/-!
Verification development for the Grand Slam Elo rating engine
(build_grand_slams.py).  The Python engine is shallowly embedded:
floats become real numbers, the rating dictionary becomes a total
function seeded at the default value, dates become day numbers in
Option Int, and the pandas multi-column stable sort becomes a stable
merge sort over a lexicographic key.
-/

/-- Substring test over character lists: does hay start with needle. -/
def startsHere : List Char → List Char → Bool
  | [], _ => true
  | _ :: _, [] => false
  | a :: as, b :: bs => a == b && startsHere as bs

/-- Substring containment over character lists (needle occurs in hay). -/
def subChars (needle : List Char) : List Char → Bool
  | [] => startsHere needle []
  | c :: rest => startsHere needle (c :: rest) || subChars needle rest

/-- Python substring test: pat in hay. -/
def strContains (hay pat : String) : Bool :=
  subChars pat.toList hay.toList

/-- Python str.upper for the ASCII round labels: uppercase every
character. -/
def strUpper (s : String) : String :=
  ⟨s.data.map Char.toUpper⟩

/-- Embedding of round_weight from build_grand_slams.py: uppercase the
label, run the ordered substring chain, and fall back to the auxiliary
exact-label table with default 0. -/
def round_weight (round_str : String) : ℚ :=
  let r := strUpper round_str
  let mapping : List (String × ℚ) :=
    [("R128", 0), ("R64", 2), ("R32", 3), ("R16", 4), ("QF", 5), ("SF", 6), ("F", 8)]
  if "F" == r then 8
  else if strContains r "SF" then 6
  else if strContains r "QF" then 5
  else if strContains r "16" then 4
  else if strContains r "32" then 3
  else if strContains r "64" then 2
  else (((mapping.find? (fun kv => kv.1 == r)).map Prod.snd).getD 0)

/-- Spec-side definition for the refinement claims: the pure ordered
substring chain with a constant 0 fallback and no auxiliary table. -/
def roundWeightSpecChain (round_str : String) : ℚ :=
  let r := strUpper round_str
  if "F" == r then 8
  else if strContains r "SF" then 6
  else if strContains r "QF" then 5
  else if strContains r "16" then 4
  else if strContains r "32" then 3
  else if strContains r "64" then 2
  else 0


/-- Embedding of one row of the sorted Grand Slam match frame: the
fields that compute_elo_timeseries reads.  Dates are day numbers; a
missing or unparseable tourney_date is none. -/
structure MatchEvent where
  tourney_id : String
  tourney_name : String
  tourney_date : Option Int
  match_num : Option Int
  round : String
  surface : String
  winner_name : String
  loser_name : String
  winner_name_norm : String
  loser_name_norm : String
deriving DecidableEq

/-- Embedding of one record appended by compute_elo_timeseries. -/
structure RatingSnapshot where
  tourney_id : String
  tourney_name : String
  tourney_date : Option Int
  round : String
  surface : String
  winner_name : String
  loser_name : String
  winner_name_norm : String
  loser_name_norm : String
  winner_elo_pre : ℝ
  loser_elo_pre : ℝ
  winner_elo_post : ℝ
  loser_elo_post : ℝ
  k_used : ℝ
  exp_winner : ℝ
  exp_loser : ℝ

/-- Engine configuration knobs of compute_elo_timeseries. -/
structure EloConfig where
  seed_elo : ℝ
  base_k : ℝ
  gs_bonus_k : ℝ
  decay_per_365d : ℝ

/-- Mutable engine state: the elo defaultdict (total function, seeded
at the default) and the last_date dictionary. -/
structure EloState where
  elo : String → ℝ
  last_date : String → Option Int

/-- Fresh state at the start of compute_elo_timeseries. -/
def initState (cfg : EloConfig) : EloState :=
  { elo := fun _ => cfg.seed_elo, last_date := fun _ => none }

/-- Embedding of expected_score from build_grand_slams.py. -/
noncomputable def expected_score (elo_player elo_opp : ℝ) : ℝ :=
  1 / (1 + (10 : ℝ) ^ ((elo_opp - elo_player) / 400))

/-- Per-player passive decay step inside the loop of
compute_elo_timeseries, for a known current date d. -/
noncomputable def decayPlayer (decay : ℝ) (d : Int) (p : String) (st : EloState) :
    EloState :=
  match st.last_date p with
  | some la =>
      let idle : Int := d - la
      if 0 < idle then
        { st with elo := Function.update st.elo p (st.elo p - decay * (idle : ℝ) / 365) }
      else st
  | none => st

/-- The decay block of compute_elo_timeseries: winner first, loser
second, only when decay is configured and the date is present. -/
noncomputable def applyDecay (cfg : EloConfig) (d : Option Int) (wn ln : String)
    (st : EloState) : EloState :=
  if 0 < cfg.decay_per_365d then
    match d with
    | some dd => decayPlayer cfg.decay_per_365d dd ln (decayPlayer cfg.decay_per_365d dd wn st)
    | none => st
  else st

/-- Embedding of one iteration of the loop of compute_elo_timeseries:
decay, expected scores, K-factor, rating commits (loser commit last),
last_date update, and the emitted record. -/
noncomputable def processEvent (cfg : EloConfig) (st : EloState) (ev : MatchEvent) :
    EloState × RatingSnapshot :=
  let st1 := applyDecay cfg ev.tourney_date ev.winner_name_norm ev.loser_name_norm st
  let ew := st1.elo ev.winner_name_norm
  let el := st1.elo ev.loser_name_norm
  let exp_w := expected_score ew el
  let exp_l := 1 - exp_w
  let k := cfg.base_k + cfg.gs_bonus_k * (round_weight ev.round : ℝ)
  let ew_new := ew + k * (1 - exp_w)
  let el_new := el + k * (0 - exp_l)
  let st2 : EloState :=
    { st1 with
      elo := Function.update (Function.update st1.elo ev.winner_name_norm ew_new)
               ev.loser_name_norm el_new }
  let st3 : EloState :=
    match ev.tourney_date with
    | some dd =>
        { st2 with
          last_date := Function.update (Function.update st2.last_date
                         ev.winner_name_norm (some dd)) ev.loser_name_norm (some dd) }
    | none => st2
  (st3,
    { tourney_id := ev.tourney_id
      tourney_name := ev.tourney_name
      tourney_date := ev.tourney_date
      round := ev.round
      surface := ev.surface
      winner_name := ev.winner_name
      loser_name := ev.loser_name
      winner_name_norm := ev.winner_name_norm
      loser_name_norm := ev.loser_name_norm
      winner_elo_pre := ew
      loser_elo_pre := el
      winner_elo_post := ew_new
      loser_elo_post := el_new
      k_used := k
      exp_winner := exp_w
      exp_loser := exp_l })

/-- The fold of compute_elo_timeseries over the sorted events. -/
noncomputable def runEvents (cfg : EloConfig) :
    EloState → List MatchEvent → EloState × List RatingSnapshot
  | st, [] => (st, [])
  | st, ev :: rest =>
      let pr := processEvent cfg st ev
      let rest2 := runEvents cfg pr.1 rest
      (rest2.1, pr.2 :: rest2.2)

/-- Sort key for one Option Int column with nulls placed last, as
pandas na_position="last" does. -/
def optIntKey : Option Int → Bool ×ₗ Int
  | none => toLex (true, 0)
  | some x => toLex (false, x)

/-- Lexicographic sort key (tourney_date, tourney_id, match_num) used
by the sort_values call in compute_elo_timeseries. -/
def evKey (ev : MatchEvent) : (Bool ×ₗ Int) ×ₗ (String ×ₗ (Bool ×ₗ Int)) :=
  toLex (optIntKey ev.tourney_date, toLex (ev.tourney_id, optIntKey ev.match_num))

/-- Boolean comparator for the stable sort. -/
def evLE (a b : MatchEvent) : Bool := decide (evKey a ≤ evKey b)

/-- Embedding of the stable multi-column sort_values call. -/
def sortEvents (evs : List MatchEvent) : List MatchEvent :=
  evs.mergeSort evLE

/-- Embedding of compute_elo_timeseries: sort, fold from a fresh
state, return the record list. -/
noncomputable def compute_elo_timeseries (cfg : EloConfig) (evs : List MatchEvent) :
    List RatingSnapshot :=
  (runEvents cfg (initState cfg) (sortEvents evs)).2

/-- Readable strict order on optional dates with null greatest. -/
def OptDateLT : Option Int → Option Int → Prop
  | some x, some y => x < y
  | some _, none => True
  | none, _ => False

/-- Readable weak order on optional values with null greatest. -/
def OptDateLE : Option Int → Option Int → Prop
  | some x, some y => x ≤ y
  | none, some _ => False
  | _, _ => True

/-- The processing order stated by the spec: ascending
(tourney_date, tourney_id, match_num) with nulls last. -/
def EvOrder (a b : MatchEvent) : Prop :=
  OptDateLT a.tourney_date b.tourney_date ∨
    (a.tourney_date = b.tourney_date ∧
      (a.tourney_id < b.tourney_id ∨
        (a.tourney_id = b.tourney_id ∧ OptDateLE a.match_num b.match_num)))

/-- The identifying (non-rating) fields of a snapshot. -/
def snapMeta (r : RatingSnapshot) :
    String × String × Option Int × String × String × String × String × String × String :=
  (r.tourney_id, r.tourney_name, r.tourney_date, r.round, r.surface,
   r.winner_name, r.loser_name, r.winner_name_norm, r.loser_name_norm)

/-- The identifying fields of an event, in snapshot field order. -/
def evMeta (e : MatchEvent) :
    String × String × Option Int × String × String × String × String × String × String :=
  (e.tourney_id, e.tourney_name, e.tourney_date, e.round, e.surface,
   e.winner_name, e.loser_name, e.winner_name_norm, e.loser_name_norm)

/-- Concrete dated event between two distinct players, for witnesses. -/
def evA : MatchEvent :=
  ⟨"T1", "Open", some 100, some 1, "F", "Hard", "A", "B", "a", "b"⟩

/-- Concrete second event with an earlier date, for the sort witness. -/
def evB : MatchEvent :=
  ⟨"T0", "Cup", some 50, some 1, "SF", "Clay", "C", "D", "c", "d"⟩

/-- Concrete undated event, for the missing-date witness. -/
def evNoDate : MatchEvent :=
  ⟨"T2", "Slam", none, some 3, "QF", "Grass", "A", "B", "a", "b"⟩

/-- Concrete degenerate event whose winner key equals its loser key. -/
def evDegen : MatchEvent :=
  ⟨"T3", "Slam", some 1, some 1, "R32", "Hard", "A", "A", "a", "a"⟩

/-- Concrete dated event for the decay witness. -/
def evDecay : MatchEvent :=
  ⟨"T4", "Slam", some 100, some 2, "F", "Hard", "A", "B", "a", "b"⟩

/-- Default configuration: seed 1500, K 32, no bonus, no decay. -/
def cfgA : EloConfig := ⟨1500, 32, 0, 0⟩

/-- Configuration with decay 36.5 points per idle year. -/
def cfgDecay : EloConfig := ⟨1500, 32, 0, 36.5⟩

/-- Configuration with decay 365 points per idle year. -/
def cfgDegen : EloConfig := ⟨1500, 32, 0, 365⟩

/-- Configuration with a negative base K-factor. -/
def cfgNeg : EloConfig := ⟨1500, -32, 0, 0⟩

/-- Configuration with a zero base K-factor. -/
def cfgZero : EloConfig := ⟨1500, 0, 0, 0⟩

/-- Concrete state where player a was last active on day 0. -/
def stDecay : EloState :=
  { elo := fun _ => 1500, last_date := fun p => if p = "a" then some 0 else none }

/-- Concrete fresh state with every rating at 1500. -/
def stFresh : EloState :=
  { elo := fun _ => 1500, last_date := fun _ => none }


theorem round_weight_eq_chain (s : String) :
    round_weight s = roundWeightSpecChain s := by
  unfold round_weight roundWeightSpecChain
  cases hF : ("F" == strUpper s) with
  | true => simp only [hF, if_true]
  | false =>
  simp only [hF, Bool.false_eq_true, if_false]
  cases h2 : strContains (strUpper s) "SF" with
  | true => simp only [h2, if_true]
  | false =>
  simp only [h2, Bool.false_eq_true, if_false]
  cases h3 : strContains (strUpper s) "QF" with
  | true => simp only [h3, if_true]
  | false =>
  simp only [h3, Bool.false_eq_true, if_false]
  cases h4 : strContains (strUpper s) "16" with
  | true => simp only [h4, if_true]
  | false =>
  simp only [h4, Bool.false_eq_true, if_false]
  cases h5 : strContains (strUpper s) "32" with
  | true => simp only [h5, if_true]
  | false =>
  simp only [h5, Bool.false_eq_true, if_false]
  cases h6 : strContains (strUpper s) "64" with
  | true => simp only [h6, if_true]
  | false =>
  simp only [h6, Bool.false_eq_true, if_false]
  -- in the final fallback, the table lookup always yields 0
  have f2 : ("R64" == strUpper s) = false := by
    cases hb : ("R64" == strUpper s) with
    | false => rfl
    | true =>
      rw [(beq_iff_eq.mp hb).symm] at h6
      exact absurd h6 (by decide)
  have f3 : ("R32" == strUpper s) = false := by
    cases hb : ("R32" == strUpper s) with
    | false => rfl
    | true =>
      rw [(beq_iff_eq.mp hb).symm] at h5
      exact absurd h5 (by decide)
  have f4 : ("R16" == strUpper s) = false := by
    cases hb : ("R16" == strUpper s) with
    | false => rfl
    | true =>
      rw [(beq_iff_eq.mp hb).symm] at h4
      exact absurd h4 (by decide)
  have f5 : ("QF" == strUpper s) = false := by
    cases hb : ("QF" == strUpper s) with
    | false => rfl
    | true =>
      rw [(beq_iff_eq.mp hb).symm] at h3
      exact absurd h3 (by decide)
  have f6 : ("SF" == strUpper s) = false := by
    cases hb : ("SF" == strUpper s) with
    | false => rfl
    | true =>
      rw [(beq_iff_eq.mp hb).symm] at h2
      exact absurd h2 (by decide)
  by_cases e1 : strUpper s = "R128"
  · simp [List.find?, e1]
  · have f1 : ("R128" == strUpper s) = false :=
      beq_eq_false_iff_ne.mpr (Ne.symm e1)
    simp [List.find?, f1, f2, f3, f4, f5, f6, hF]

theorem expected_score_pos (a b : ℝ) : 0 < expected_score a b := by
  unfold expected_score
  have ht : (0 : ℝ) < (10 : ℝ) ^ ((b - a) / 400) :=
    Real.rpow_pos_of_pos (by norm_num) _
  positivity

theorem expected_score_lt_one (a b : ℝ) : expected_score a b < 1 := by
  unfold expected_score
  have ht : (0 : ℝ) < (10 : ℝ) ^ ((b - a) / 400) :=
    Real.rpow_pos_of_pos (by norm_num) _
  rw [div_lt_one (by linarith)]
  linarith

theorem expected_score_symm_sum (a b : ℝ) :
    expected_score a b + expected_score b a = 1 := by
  unfold expected_score
  have ht : (0 : ℝ) < (10 : ℝ) ^ ((b - a) / 400) :=
    Real.rpow_pos_of_pos (by norm_num) _
  have hrev : (10 : ℝ) ^ ((a - b) / 400) = ((10 : ℝ) ^ ((b - a) / 400))⁻¹ := by
    rw [← Real.rpow_neg (by norm_num : (0:ℝ) ≤ 10)]
    congr 1
    ring
  rw [hrev]
  have h1 : (1 : ℝ) + (10 : ℝ) ^ ((b - a) / 400) ≠ 0 := by linarith
  have h2 : (10 : ℝ) ^ ((b - a) / 400) ≠ 0 := ne_of_gt ht
  field_simp
  ring

theorem expected_score_self (a : ℝ) : expected_score a a = 1 / 2 := by
  unfold expected_score
  rw [sub_self, zero_div, Real.rpow_zero]
  norm_num

theorem runEvents_nil (cfg : EloConfig) (st : EloState) :
    runEvents cfg st [] = (st, []) := rfl

theorem runEvents_cons (cfg : EloConfig) (st : EloState) (ev : MatchEvent)
    (rest : List MatchEvent) :
    runEvents cfg st (ev :: rest) =
      ((runEvents cfg (processEvent cfg st ev).1 rest).1,
       (processEvent cfg st ev).2 :: (runEvents cfg (processEvent cfg st ev).1 rest).2) := rfl

theorem mem_runEvents_snd {cfg : EloConfig} (P : RatingSnapshot → Prop)
    (hP : ∀ st ev, P (processEvent cfg st ev).2) :
    ∀ (evs : List MatchEvent) (st : EloState) (rec : RatingSnapshot),
      rec ∈ (runEvents cfg st evs).2 → P rec := by
  intro evs
  induction evs with
  | nil => intro st rec h; simp [runEvents_nil] at h
  | cons ev rest ih =>
      intro st rec h
      rw [runEvents_cons] at h
      rcases List.mem_cons.mp h with h1 | h2
      · rw [h1]; exact hP st ev
      · exact ih _ _ h2

theorem mem_compute_elo_timeseries {cfg : EloConfig} (P : RatingSnapshot → Prop)
    (hP : ∀ st ev, P (processEvent cfg st ev).2) (evs : List MatchEvent)
    (rec : RatingSnapshot) (h : rec ∈ compute_elo_timeseries cfg evs) : P rec :=
  mem_runEvents_snd P hP (sortEvents evs) (initState cfg) rec h

theorem processEvent_winner_pre (cfg : EloConfig) (st : EloState) (ev : MatchEvent) :
    (processEvent cfg st ev).2.winner_elo_pre =
      (applyDecay cfg ev.tourney_date ev.winner_name_norm ev.loser_name_norm st).elo
        ev.winner_name_norm := rfl

theorem processEvent_loser_pre (cfg : EloConfig) (st : EloState) (ev : MatchEvent) :
    (processEvent cfg st ev).2.loser_elo_pre =
      (applyDecay cfg ev.tourney_date ev.winner_name_norm ev.loser_name_norm st).elo
        ev.loser_name_norm := rfl

theorem processEvent_exp_winner (cfg : EloConfig) (st : EloState) (ev : MatchEvent) :
    (processEvent cfg st ev).2.exp_winner =
      expected_score (processEvent cfg st ev).2.winner_elo_pre
        (processEvent cfg st ev).2.loser_elo_pre := rfl

theorem processEvent_exp_loser (cfg : EloConfig) (st : EloState) (ev : MatchEvent) :
    (processEvent cfg st ev).2.exp_loser = 1 - (processEvent cfg st ev).2.exp_winner := rfl

theorem processEvent_k_used (cfg : EloConfig) (st : EloState) (ev : MatchEvent) :
    (processEvent cfg st ev).2.k_used =
      cfg.base_k + cfg.gs_bonus_k * (round_weight ev.round : ℝ) := rfl

theorem processEvent_winner_post (cfg : EloConfig) (st : EloState) (ev : MatchEvent) :
    (processEvent cfg st ev).2.winner_elo_post =
      (processEvent cfg st ev).2.winner_elo_pre +
        (processEvent cfg st ev).2.k_used * (1 - (processEvent cfg st ev).2.exp_winner) := rfl

theorem processEvent_loser_post (cfg : EloConfig) (st : EloState) (ev : MatchEvent) :
    (processEvent cfg st ev).2.loser_elo_post =
      (processEvent cfg st ev).2.loser_elo_pre +
        (processEvent cfg st ev).2.k_used * (0 - (processEvent cfg st ev).2.exp_loser) := rfl

theorem processEvent_fst_elo (cfg : EloConfig) (st : EloState) (ev : MatchEvent) :
    (processEvent cfg st ev).1.elo =
      Function.update
        (Function.update
          (applyDecay cfg ev.tourney_date ev.winner_name_norm ev.loser_name_norm st).elo
          ev.winner_name_norm (processEvent cfg st ev).2.winner_elo_post)
        ev.loser_name_norm (processEvent cfg st ev).2.loser_elo_post := by
  rcases ev with ⟨tid, tname, td, mn, rd, sf, w, l, wnn, lnn⟩
  cases td <;> rfl

theorem decayPlayer_last_date (decay : ℝ) (d : Int) (p : String) (st : EloState) :
    (decayPlayer decay d p st).last_date = st.last_date := by
  unfold decayPlayer
  cases st.last_date p <;> simp only
  split <;> rfl

theorem decayPlayer_elo_other (decay : ℝ) (d : Int) (p q : String) (st : EloState)
    (h : q ≠ p) : (decayPlayer decay d p st).elo q = st.elo q := by
  unfold decayPlayer
  cases st.last_date p <;> simp only
  split
  · exact Function.update_noteq h _ _
  · rfl

theorem decayPlayer_elo_self (decay : ℝ) (d : Int) (p : String) (st : EloState)
    (la : Int) (hla : st.last_date p = some la) (hidle : 0 < d - la) :
    (decayPlayer decay d p st).elo p = st.elo p - decay * ((d - la : ℤ) : ℝ) / 365 := by
  unfold decayPlayer
  rw [hla]
  simp only [hidle, if_true]
  exact Function.update_same _ _ _

theorem applyDecay_none (cfg : EloConfig) (wn ln : String) (st : EloState) :
    applyDecay cfg none wn ln st = st := by
  unfold applyDecay
  split <;> rfl

theorem applyDecay_not_pos (cfg : EloConfig) (d : Option Int) (wn ln : String)
    (st : EloState) (h : ¬ 0 < cfg.decay_per_365d) :
    applyDecay cfg d wn ln st = st := by
  unfold applyDecay
  rw [if_neg h]

theorem applyDecay_pos_some (cfg : EloConfig) (dd : Int) (wn ln : String)
    (st : EloState) (h : 0 < cfg.decay_per_365d) :
    applyDecay cfg (some dd) wn ln st =
      decayPlayer cfg.decay_per_365d dd ln (decayPlayer cfg.decay_per_365d dd wn st) := by
  unfold applyDecay
  rw [if_pos h]

theorem runEvents_snd_length (cfg : EloConfig) :
    ∀ (evs : List MatchEvent) (st : EloState),
      (runEvents cfg st evs).2.length = evs.length := by
  intro evs
  induction evs with
  | nil => intro st; rfl
  | cons ev rest ih =>
      intro st
      rw [runEvents_cons]
      simp [ih]

theorem runEvents_snd_map_meta (cfg : EloConfig) :
    ∀ (evs : List MatchEvent) (st : EloState),
      (runEvents cfg st evs).2.map snapMeta = evs.map evMeta := by
  intro evs
  induction evs with
  | nil => intro st; rfl
  | cons ev rest ih =>
      intro st
      rw [runEvents_cons]
      simp only [List.map_cons, ih]
      rfl

theorem evLE_trans (a b c : MatchEvent) (h1 : evLE a b = true) (h2 : evLE b c = true) :
    evLE a c = true := by
  simp only [evLE, decide_eq_true_eq] at h1 h2 ⊢
  exact le_trans h1 h2

theorem evLE_total (a b : MatchEvent) : evLE a b || evLE b a := by
  simp only [evLE, Bool.or_eq_true, decide_eq_true_eq]
  exact le_total _ _

theorem optIntKey_lt_iff (a b : Option Int) :
    optIntKey a < optIntKey b ↔ OptDateLT a b := by
  cases a <;> cases b <;>
    simp [optIntKey, OptDateLT, Prod.Lex.lt_iff]

theorem optIntKey_le_iff (a b : Option Int) :
    optIntKey a ≤ optIntKey b ↔ OptDateLE a b := by
  cases a <;> cases b <;>
    simp [optIntKey, OptDateLE, Prod.Lex.le_iff]

theorem optIntKey_eq_iff (a b : Option Int) :
    optIntKey a = optIntKey b ↔ a = b := by
  cases a <;> cases b <;>
    simp [optIntKey, toLex_inj, Prod.ext_iff]

theorem evLE_iff_EvOrder (a b : MatchEvent) : evLE a b = true ↔ EvOrder a b := by
  simp only [evLE, decide_eq_true_eq, evKey, EvOrder, Prod.Lex.le_iff, Prod.Lex.lt_iff]
  simp only [optIntKey_lt_iff, optIntKey_le_iff, optIntKey_eq_iff]

/-- C1: for every processed MatchEvent, the expected score of the
winner equals 1 / (1 + 10^((ratingL - ratingW)/400)) where the pre
ratings are the post-decay stored ratings read for this event, and the
expected score of the loser is one minus that of the winner. -/
theorem elo_C1_expected_score_orientation :
    ∀ (cfg : EloConfig) (evs : List MatchEvent) (rec : RatingSnapshot),
      rec ∈ compute_elo_timeseries cfg evs →
      rec.exp_winner =
          1 / (1 + (10 : ℝ) ^ ((rec.loser_elo_pre - rec.winner_elo_pre) / 400))
        ∧ rec.exp_loser = 1 - rec.exp_winner := by
  intro cfg evs rec h
  exact mem_compute_elo_timeseries
    (fun r => r.exp_winner =
        1 / (1 + (10 : ℝ) ^ ((r.loser_elo_pre - r.winner_elo_pre) / 400))
      ∧ r.exp_loser = 1 - r.exp_winner)
    (fun st ev => ⟨rfl, rfl⟩) evs rec h

/-- Witness for C1 at a concrete one-event run. -/
theorem elo_C1_witness :
    ((processEvent cfgA (initState cfgA) evA).2 ∈ compute_elo_timeseries cfgA [evA])
    ∧ (processEvent cfgA (initState cfgA) evA).2.exp_winner =
        1 / (1 + (10 : ℝ) ^ (((processEvent cfgA (initState cfgA) evA).2.loser_elo_pre -
          (processEvent cfgA (initState cfgA) evA).2.winner_elo_pre) / 400)) := by
  have hmem : (processEvent cfgA (initState cfgA) evA).2 ∈ compute_elo_timeseries cfgA [evA] := by
    simp [compute_elo_timeseries, sortEvents, List.mergeSort, runEvents_cons, runEvents_nil]
  exact ⟨hmem, (elo_C1_expected_score_orientation cfgA [evA] _ hmem).1⟩

/-- C2: when decay_per_365d is 0, for every processed event the winner
gain plus the loser change is exactly zero, and the winner gain is
k_used times one minus the winner expectation. -/
theorem elo_C2_zero_sum :
    ∀ (cfg : EloConfig) (evs : List MatchEvent) (rec : RatingSnapshot),
      cfg.decay_per_365d = 0 →
      rec ∈ compute_elo_timeseries cfg evs →
      (rec.winner_elo_post - rec.winner_elo_pre) +
          (rec.loser_elo_post - rec.loser_elo_pre) = 0
        ∧ rec.winner_elo_post - rec.winner_elo_pre = rec.k_used * (1 - rec.exp_winner) := by
  intro cfg evs rec hdec h
  refine mem_compute_elo_timeseries
    (fun r => (r.winner_elo_post - r.winner_elo_pre) +
        (r.loser_elo_post - r.loser_elo_pre) = 0
      ∧ r.winner_elo_post - r.winner_elo_pre = r.k_used * (1 - r.exp_winner))
    (fun st ev => ⟨?_, ?_⟩) evs rec h
  · show (processEvent cfg st ev).2.winner_elo_post - (processEvent cfg st ev).2.winner_elo_pre +
      ((processEvent cfg st ev).2.loser_elo_post - (processEvent cfg st ev).2.loser_elo_pre) = 0
    rw [processEvent_winner_post, processEvent_loser_post, processEvent_exp_loser]
    ring
  · show (processEvent cfg st ev).2.winner_elo_post - (processEvent cfg st ev).2.winner_elo_pre =
      (processEvent cfg st ev).2.k_used * (1 - (processEvent cfg st ev).2.exp_winner)
    rw [processEvent_winner_post]
    ring

/-- Witness for C2 at a concrete one-event run with decay 0. -/
theorem elo_C2_witness :
    cfgA.decay_per_365d = 0
    ∧ ((processEvent cfgA (initState cfgA) evA).2.winner_elo_post -
          (processEvent cfgA (initState cfgA) evA).2.winner_elo_pre) +
        ((processEvent cfgA (initState cfgA) evA).2.loser_elo_post -
          (processEvent cfgA (initState cfgA) evA).2.loser_elo_pre) = 0 := by
  have hmem : (processEvent cfgA (initState cfgA) evA).2 ∈ compute_elo_timeseries cfgA [evA] := by
    simp [compute_elo_timeseries, sortEvents, List.mergeSort, runEvents_cons, runEvents_nil]
  exact ⟨rfl, (elo_C2_zero_sum cfgA [evA] _ rfl hmem).1⟩

/-- C3: round_weight uppercases the label and applies the ordered
substring chain, first match winning, with fallback 0; in particular
the listed concrete values hold. -/
theorem elo_C3_round_weight_values :
    (∀ r : String, round_weight r = roundWeightSpecChain r)
    ∧ round_weight "QF" = 5 ∧ round_weight "R16" = 4 ∧ round_weight "SF" = 6
    ∧ round_weight "F" = 8 ∧ round_weight "RR" = 0 :=
  ⟨round_weight_eq_chain, by decide, by decide, by decide, by decide, by decide⟩

/-- C7: the expectation identities: the two orientations sum to one,
equal ratings give one half, and every emitted snapshot has
exp_winner plus exp_loser equal to one. -/
theorem elo_C7_expectation_identities :
    (∀ a b : ℝ, expected_score a b + expected_score b a = 1)
    ∧ (∀ a : ℝ, expected_score a a = 1 / 2)
    ∧ ∀ (cfg : EloConfig) (evs : List MatchEvent) (rec : RatingSnapshot),
        rec ∈ compute_elo_timeseries cfg evs → rec.exp_winner + rec.exp_loser = 1 := by
  refine ⟨expected_score_symm_sum, expected_score_self, ?_⟩
  intro cfg evs rec h
  refine mem_compute_elo_timeseries
    (fun r => r.exp_winner + r.exp_loser = 1)
    (fun st ev => ?_) evs rec h
  show (processEvent cfg st ev).2.exp_winner + (processEvent cfg st ev).2.exp_loser = 1
  rw [processEvent_exp_loser]
  ring

/-- Witness for C7 at a concrete one-event run. -/
theorem elo_C7_witness :
    (processEvent cfgA (initState cfgA) evA).2.exp_winner +
      (processEvent cfgA (initState cfgA) evA).2.exp_loser = 1 := by
  have hmem : (processEvent cfgA (initState cfgA) evA).2 ∈ compute_elo_timeseries cfgA [evA] := by
    simp [compute_elo_timeseries, sortEvents, List.mergeSort, runEvents_cons, runEvents_nil]
  exact elo_C7_expectation_identities.2.2 cfgA [evA] _ hmem

/-- C8: the auxiliary exact-label table in round_weight is
functionally redundant: for every input string the function agrees
with the pure ordered substring chain with constant 0 fallback. -/
theorem elo_C8_table_redundant :
    ∀ r : String, round_weight r = roundWeightSpecChain r :=
  round_weight_eq_chain

theorem applyDecay_last_date (cfg : EloConfig) (d : Option Int) (wn ln : String)
    (st : EloState) : (applyDecay cfg d wn ln st).last_date = st.last_date := by
  unfold applyDecay
  split
  · cases d
    · rfl
    · simp only
      rw [decayPlayer_last_date, decayPlayer_last_date]
  · rfl

/-- C5: an event with a missing date skips decay and the last_active
update, but the rating update runs exactly as with decay disabled;
and no event is ever dropped (one snapshot per event). -/
theorem elo_C5_missing_date (cfg : EloConfig) :
    (∀ evs : List MatchEvent, (compute_elo_timeseries cfg evs).length = evs.length)
    ∧ ∀ (st : EloState) (ev : MatchEvent), ev.tourney_date = none →
        (processEvent cfg st ev).1.last_date = st.last_date
        ∧ processEvent cfg st ev =
            processEvent ⟨cfg.seed_elo, cfg.base_k, cfg.gs_bonus_k, 0⟩ st ev
        ∧ (processEvent cfg st ev).2.winner_elo_pre = st.elo ev.winner_name_norm
        ∧ (processEvent cfg st ev).2.loser_elo_pre = st.elo ev.loser_name_norm
        ∧ (processEvent cfg st ev).2.winner_elo_post =
            st.elo ev.winner_name_norm +
              (cfg.base_k + cfg.gs_bonus_k * (round_weight ev.round : ℝ)) *
                (1 - expected_score (st.elo ev.winner_name_norm) (st.elo ev.loser_name_norm))
        ∧ (processEvent cfg st ev).2.loser_elo_post =
            st.elo ev.loser_name_norm +
              (cfg.base_k + cfg.gs_bonus_k * (round_weight ev.round : ℝ)) *
                (0 - (1 - expected_score (st.elo ev.winner_name_norm)
                        (st.elo ev.loser_name_norm))) := by
  constructor
  · intro evs
    calc (compute_elo_timeseries cfg evs).length
        = (sortEvents evs).length := runEvents_snd_length cfg _ _
      _ = evs.length := (List.mergeSort_perm evs evLE).length_eq
  · intro st ev hd
    have hdec : applyDecay cfg ev.tourney_date ev.winner_name_norm ev.loser_name_norm st
        = st := by rw [hd]; exact applyDecay_none _ _ _ _
    refine ⟨?_, ?_, ?_, ?_, ?_, ?_⟩
    · rcases ev with ⟨tid, tname, td, mn, rd, sf, w, l, wnn, lnn⟩
      cases td with
      | none =>
          show (applyDecay cfg none wnn lnn st).last_date = st.last_date
          rw [applyDecay_last_date]
      | some dd => exact absurd hd (by simp)
    · unfold processEvent
      rw [hd, applyDecay_none, applyDecay_none]
    · rw [processEvent_winner_pre, hdec]
    · rw [processEvent_loser_pre, hdec]
    · rw [processEvent_winner_post, processEvent_winner_pre, processEvent_k_used,
        processEvent_exp_winner, processEvent_winner_pre, processEvent_loser_pre, hdec]
    · rw [processEvent_loser_post, processEvent_loser_pre, processEvent_k_used,
        processEvent_exp_loser, processEvent_exp_winner,
        processEvent_winner_pre, processEvent_loser_pre, hdec]

/-- Witness for C5 at a concrete undated event with decay enabled. -/
theorem elo_C5_witness :
    evNoDate.tourney_date = none
    ∧ (processEvent cfgDecay stDecay evNoDate).1.last_date = stDecay.last_date
    ∧ (compute_elo_timeseries cfgDecay [evNoDate]).length = 1 := by
  obtain ⟨hlen, hblock⟩ := elo_C5_missing_date cfgDecay
  obtain ⟨h1, h2, h3, h4, h5, h6⟩ := hblock stDecay evNoDate rfl
  exact ⟨rfl, h1, hlen [evNoDate]⟩

/-- C6: the engine processes events in ascending order of the key
(tourney_date, tourney_id, match_num) with nulls last, via a stable
sort, and emits exactly one snapshot per event in processing order. -/
theorem elo_C6_processing_order (cfg : EloConfig) (evs : List MatchEvent) :
    (compute_elo_timeseries cfg evs).map snapMeta = (sortEvents evs).map evMeta
    ∧ (compute_elo_timeseries cfg evs).length = evs.length
    ∧ List.Pairwise (fun a b => evLE a b = true) (sortEvents evs)
    ∧ List.Perm (sortEvents evs) evs
    ∧ (∀ c : List MatchEvent, List.Pairwise (fun a b => evLE a b = true) c →
        c.Sublist evs → c.Sublist (sortEvents evs))
    ∧ (∀ a b : MatchEvent, evLE a b = true ↔ EvOrder a b) := by
  refine ⟨runEvents_snd_map_meta cfg (sortEvents evs) (initState cfg), ?_, ?_,
    List.mergeSort_perm evs evLE, ?_, evLE_iff_EvOrder⟩
  · calc (compute_elo_timeseries cfg evs).length
        = (sortEvents evs).length := runEvents_snd_length cfg _ _
      _ = evs.length := (List.mergeSort_perm evs evLE).length_eq
  · exact List.sorted_mergeSort evLE_trans evLE_total evs
  · intro c hc hs
    exact List.sublist_mergeSort evLE_trans evLE_total hc hs

/-- Witness for C6 at a concrete two-event run. -/
theorem elo_C6_witness :
    List.Pairwise (fun a b => evLE a b = true) (sortEvents [evA, evB])
    ∧ List.Sublist [evB] (sortEvents [evA, evB]) := by
  obtain ⟨h1, h2, h3, h4, h5, h6⟩ := elo_C6_processing_order cfgA [evA, evB]
  exact ⟨h3, h5 [evB] (List.pairwise_singleton _ _)
    (List.Sublist.cons evA (List.Sublist.refl [evB]))⟩

/-- C4 (amended): with decay configured, a valid event date, and
distinct winner and loser keys, each participant with a recorded
last_active and positive idle time has exactly
decay_per_365d * idle_days / 365 subtracted and committed before the
expectations are computed, and the reduced value is the elo_pre of
that side. -/
theorem elo_C4_decay_before_expectation (cfg : EloConfig) (st : EloState)
    (ev : MatchEvent) (dd : Int) (hdec : 0 < cfg.decay_per_365d)
    (hd : ev.tourney_date = some dd)
    (hne : ev.winner_name_norm ≠ ev.loser_name_norm) :
    (∀ law : Int, st.last_date ev.winner_name_norm = some law → 0 < dd - law →
      (processEvent cfg st ev).2.winner_elo_pre =
        st.elo ev.winner_name_norm - cfg.decay_per_365d * ((dd - law : ℤ) : ℝ) / 365)
    ∧ (∀ lal : Int, st.last_date ev.loser_name_norm = some lal → 0 < dd - lal →
      (processEvent cfg st ev).2.loser_elo_pre =
        st.elo ev.loser_name_norm - cfg.decay_per_365d * ((dd - lal : ℤ) : ℝ) / 365)
    ∧ (processEvent cfg st ev).2.exp_winner =
        expected_score (processEvent cfg st ev).2.winner_elo_pre
          (processEvent cfg st ev).2.loser_elo_pre := by
  refine ⟨?_, ?_, processEvent_exp_winner cfg st ev⟩
  · intro law hlaw hidle
    rw [processEvent_winner_pre, hd, applyDecay_pos_some _ _ _ _ _ hdec,
      decayPlayer_elo_other _ _ _ _ _ hne]
    exact decayPlayer_elo_self _ _ _ _ law hlaw hidle
  · intro lal hlal hidle
    rw [processEvent_loser_pre, hd, applyDecay_pos_some _ _ _ _ _ hdec]
    have hld : (decayPlayer cfg.decay_per_365d dd ev.winner_name_norm st).last_date
        ev.loser_name_norm = some lal := by
      rw [decayPlayer_last_date]; exact hlal
    rw [decayPlayer_elo_self _ _ _ _ lal hld hidle,
      decayPlayer_elo_other _ _ _ _ _ (Ne.symm hne)]

/-- Witness for C4 at the spec decay scenario: decay 36.5, idle 100
days, exactly 10 points lost before the expectation is computed. -/
theorem elo_C4_witness :
    (0:ℝ) < cfgDecay.decay_per_365d
    ∧ evDecay.tourney_date = some 100
    ∧ stDecay.last_date evDecay.winner_name_norm = some 0
    ∧ (processEvent cfgDecay stDecay evDecay).2.winner_elo_pre =
        stDecay.elo evDecay.winner_name_norm -
          cfgDecay.decay_per_365d * ((100 - 0 : ℤ) : ℝ) / 365
    ∧ cfgDecay.decay_per_365d * ((100 - 0 : ℤ) : ℝ) / 365 = 10 := by
  have hdec : (0:ℝ) < cfgDecay.decay_per_365d := by norm_num [cfgDecay]
  have hw := (elo_C4_decay_before_expectation cfgDecay stDecay evDecay 100 hdec rfl
    (by decide)).1
  refine ⟨hdec, rfl, by decide, hw 0 (by decide) (by decide), ?_⟩
  show (36.5 : ℝ) * ((100 - 0 : ℤ) : ℝ) / 365 = 10
  norm_num

/-- Counterexample to C4 as frozen: when the winner key equals the
loser key, the decay deduction is applied twice, so the elo_pre is not
the singly decayed value. -/
theorem elo_C4_counterexample :
    (0:ℝ) < cfgDegen.decay_per_365d
    ∧ evDegen.tourney_date = some 1
    ∧ stDecay.last_date evDegen.winner_name_norm = some 0
    ∧ ((0:ℤ) < 1 - 0)
    ∧ (processEvent cfgDegen stDecay evDegen).2.winner_elo_pre ≠
        stDecay.elo evDegen.winner_name_norm -
          cfgDegen.decay_per_365d * ((1 - 0 : ℤ) : ℝ) / 365 := by
  have hdec : (0:ℝ) < cfgDegen.decay_per_365d := by norm_num [cfgDegen]
  refine ⟨hdec, rfl, by decide, by decide, ?_⟩
  rw [processEvent_winner_pre]
  rw [show evDegen.tourney_date = some 1 from rfl,
    applyDecay_pos_some _ _ _ _ _ hdec]
  rw [show evDegen.winner_name_norm = "a" from rfl,
    show evDegen.loser_name_norm = "a" from rfl]
  have hld : (decayPlayer cfgDegen.decay_per_365d 1 "a" stDecay).last_date "a" = some 0 := by
    rw [decayPlayer_last_date]; decide
  rw [decayPlayer_elo_self _ _ _ _ 0 hld (by decide),
    decayPlayer_elo_self _ _ _ _ 0 (by decide) (by decide)]
  show (1500:ℝ) - (365:ℝ) * ((1 - 0 : ℤ) : ℝ) / 365 - (365:ℝ) * ((1 - 0 : ℤ) : ℝ) / 365 ≠
    (1500:ℝ) - (365:ℝ) * ((1 - 0 : ℤ) : ℝ) / 365
  norm_num

/-- C9 (amended): with the smaller effective K-factor nonnegative,
increasing base_k strictly increases the absolute winner rating
change, for any event with winner expectation not equal to one. -/
theorem elo_C9_base_k_monotonic (cfg : EloConfig) (st : EloState) (ev : MatchEvent)
    (b1 b2 : ℝ) (hb : b1 < b2)
    (hk : 0 ≤ b1 + cfg.gs_bonus_k * (round_weight ev.round : ℝ))
    (hne : (processEvent ⟨cfg.seed_elo, b1, cfg.gs_bonus_k, cfg.decay_per_365d⟩ st ev).2.exp_winner ≠ 1) :
    |(processEvent ⟨cfg.seed_elo, b1, cfg.gs_bonus_k, cfg.decay_per_365d⟩ st ev).2.winner_elo_post -
        (processEvent ⟨cfg.seed_elo, b1, cfg.gs_bonus_k, cfg.decay_per_365d⟩ st ev).2.winner_elo_pre| <
      |(processEvent ⟨cfg.seed_elo, b2, cfg.gs_bonus_k, cfg.decay_per_365d⟩ st ev).2.winner_elo_post -
        (processEvent ⟨cfg.seed_elo, b2, cfg.gs_bonus_k, cfg.decay_per_365d⟩ st ev).2.winner_elo_pre| := by
  have he_lt :
      (processEvent ⟨cfg.seed_elo, b1, cfg.gs_bonus_k, cfg.decay_per_365d⟩ st ev).2.exp_winner < 1 := by
    rw [processEvent_exp_winner]
    exact expected_score_lt_one _ _
  have he2 :
      (processEvent ⟨cfg.seed_elo, b2, cfg.gs_bonus_k, cfg.decay_per_365d⟩ st ev).2.exp_winner =
        (processEvent ⟨cfg.seed_elo, b1, cfg.gs_bonus_k, cfg.decay_per_365d⟩ st ev).2.exp_winner := rfl
  have hk1 :
      (processEvent ⟨cfg.seed_elo, b1, cfg.gs_bonus_k, cfg.decay_per_365d⟩ st ev).2.k_used =
        b1 + cfg.gs_bonus_k * (round_weight ev.round : ℝ) := rfl
  have hk2 :
      (processEvent ⟨cfg.seed_elo, b2, cfg.gs_bonus_k, cfg.decay_per_365d⟩ st ev).2.k_used =
        b2 + cfg.gs_bonus_k * (round_weight ev.round : ℝ) := rfl
  rw [processEvent_winner_post, processEvent_winner_post, hk1, hk2, he2]
  simp only [add_sub_cancel_left]
  set e := (processEvent ⟨cfg.seed_elo, b1, cfg.gs_bonus_k, cfg.decay_per_365d⟩ st ev).2.exp_winner
  rw [abs_of_nonneg (mul_nonneg hk (by linarith)),
    abs_of_nonneg (mul_nonneg (by linarith) (by linarith))]
  exact mul_lt_mul_of_pos_right (by linarith) (by linarith)

/-- Witness for C9 at base K 32 versus 33 on a fresh state. -/
theorem elo_C9_witness :
    ((32:ℝ) < 33)
    ∧ ((0:ℝ) ≤ 32 + cfgA.gs_bonus_k * (round_weight evA.round : ℝ))
    ∧ |(processEvent ⟨cfgA.seed_elo, 32, cfgA.gs_bonus_k, cfgA.decay_per_365d⟩ stFresh evA).2.winner_elo_post -
        (processEvent ⟨cfgA.seed_elo, 32, cfgA.gs_bonus_k, cfgA.decay_per_365d⟩ stFresh evA).2.winner_elo_pre| <
      |(processEvent ⟨cfgA.seed_elo, 33, cfgA.gs_bonus_k, cfgA.decay_per_365d⟩ stFresh evA).2.winner_elo_post -
        (processEvent ⟨cfgA.seed_elo, 33, cfgA.gs_bonus_k, cfgA.decay_per_365d⟩ stFresh evA).2.winner_elo_pre| := by
  have hk : (0:ℝ) ≤ 32 + cfgA.gs_bonus_k * (round_weight evA.round : ℝ) := by
    rw [show cfgA.gs_bonus_k = (0:ℝ) from rfl]
    norm_num
  have hne : (processEvent ⟨cfgA.seed_elo, 32, cfgA.gs_bonus_k, cfgA.decay_per_365d⟩
      stFresh evA).2.exp_winner ≠ 1 := by
    rw [processEvent_exp_winner]
    exact ne_of_lt (expected_score_lt_one _ _)
  exact ⟨by norm_num, hk,
    elo_C9_base_k_monotonic cfgA stFresh evA 32 33 (by norm_num) hk hne⟩

/-- Counterexample to C9 as frozen: with a negative base K, raising
base_k from -32 to 0 strictly decreases the absolute winner change,
even though the winner expectation is not one. -/
theorem elo_C9_counterexample :
    cfgNeg.base_k < cfgZero.base_k
    ∧ cfgNeg.gs_bonus_k = cfgZero.gs_bonus_k
    ∧ (processEvent cfgNeg stFresh evA).2.exp_winner ≠ 1
    ∧ |(processEvent cfgZero stFresh evA).2.winner_elo_post -
        (processEvent cfgZero stFresh evA).2.winner_elo_pre| <
      |(processEvent cfgNeg stFresh evA).2.winner_elo_post -
        (processEvent cfgNeg stFresh evA).2.winner_elo_pre| := by
  have he_lt : (processEvent cfgNeg stFresh evA).2.exp_winner < 1 := by
    rw [processEvent_exp_winner]
    exact expected_score_lt_one _ _
  have he_pos : 0 < (processEvent cfgNeg stFresh evA).2.exp_winner := by
    rw [processEvent_exp_winner]
    exact expected_score_pos _ _
  refine ⟨by norm_num [cfgNeg, cfgZero], rfl, ne_of_lt he_lt, ?_⟩
  have hz : (processEvent cfgZero stFresh evA).2.winner_elo_post -
      (processEvent cfgZero stFresh evA).2.winner_elo_pre = 0 := by
    rw [processEvent_winner_post,
      show (processEvent cfgZero stFresh evA).2.k_used =
        (0:ℝ) + (0:ℝ) * (round_weight evA.round : ℝ) from rfl]
    ring
  have hn : (processEvent cfgNeg stFresh evA).2.winner_elo_post -
      (processEvent cfgNeg stFresh evA).2.winner_elo_pre =
        (-32) * (1 - (processEvent cfgNeg stFresh evA).2.exp_winner) := by
    rw [processEvent_winner_post,
      show (processEvent cfgNeg stFresh evA).2.k_used =
        (-32:ℝ) + (0:ℝ) * (round_weight evA.round : ℝ) from rfl]
    ring
  rw [hz, hn, abs_zero]
  rw [abs_pos]
  exact mul_ne_zero (by norm_num) (by intro hcon; nlinarith)

/-- C10: when the winner key of an event equals its loser key, the
final stored rating is the loser-side update (rating minus half of K,
since the expectation is one half), because the loser commit
overwrites the winner commit; and when decay fires on that event, the
deduction is applied twice before the expectation is computed. -/
theorem elo_C10_degenerate_event (cfg : EloConfig) (st : EloState) (ev : MatchEvent)
    (heq : ev.winner_name_norm = ev.loser_name_norm) :
    (processEvent cfg st ev).1.elo ev.winner_name_norm =
        (processEvent cfg st ev).2.loser_elo_post
    ∧ (processEvent cfg st ev).2.loser_elo_post =
        (processEvent cfg st ev).2.winner_elo_pre -
          (cfg.base_k + cfg.gs_bonus_k * (round_weight ev.round : ℝ)) * (1 / 2)
    ∧ (∀ (dd la : Int), 0 < cfg.decay_per_365d → ev.tourney_date = some dd →
        st.last_date ev.winner_name_norm = some la → 0 < dd - la →
        (processEvent cfg st ev).2.winner_elo_pre =
          st.elo ev.winner_name_norm -
            2 * (cfg.decay_per_365d * ((dd - la : ℤ) : ℝ) / 365)) := by
  have hpre : (processEvent cfg st ev).2.winner_elo_pre =
      (processEvent cfg st ev).2.loser_elo_pre := by
    rw [processEvent_winner_pre, processEvent_loser_pre, heq]
  have hexp : (processEvent cfg st ev).2.exp_winner = 1 / 2 := by
    rw [processEvent_exp_winner, hpre]
    exact expected_score_self _
  refine ⟨?_, ?_, ?_⟩
  · rw [processEvent_fst_elo, heq]
    exact Function.update_same _ _ _
  · rw [processEvent_loser_post, processEvent_exp_loser, hexp, processEvent_k_used, ← hpre]
    ring
  · intro dd la hdec hd hla hidle
    rw [processEvent_winner_pre, hd, applyDecay_pos_some _ _ _ _ _ hdec, ← heq]
    have hld : (decayPlayer cfg.decay_per_365d dd ev.winner_name_norm st).last_date
        ev.winner_name_norm = some la := by
      rw [decayPlayer_last_date]; exact hla
    rw [decayPlayer_elo_self _ _ _ _ la hld hidle,
      decayPlayer_elo_self _ _ _ _ la hla hidle]
    ring

/-- Witness for C10 at a concrete degenerate event with decay. -/
theorem elo_C10_witness :
    evDegen.winner_name_norm = evDegen.loser_name_norm
    ∧ (processEvent cfgDegen stDecay evDegen).1.elo evDegen.winner_name_norm =
        (processEvent cfgDegen stDecay evDegen).2.loser_elo_post
    ∧ (processEvent cfgDegen stDecay evDegen).2.winner_elo_pre =
        stDecay.elo evDegen.winner_name_norm -
          2 * (cfgDegen.decay_per_365d * ((1 - 0 : ℤ) : ℝ) / 365) := by
  obtain ⟨h1, h2, h3⟩ := elo_C10_degenerate_event cfgDegen stDecay evDegen rfl
  exact ⟨rfl, h1, h3 1 0 (by norm_num [cfgDegen]) rfl (by decide) (by decide)⟩
